import Mathlib

/-!
Verification of the JSON-extraction core and the relationship-label
sanitization of the `sticky` backend.

The embedding works over `List Char` (Python `str` as a character sequence).

Sources embedded here:
* `backend/utils.py`, `extract_json_from_text` — trims the input, finds the
  first `\x7b` or `[`, tries progressively shorter slices `text[start:end]`
  through `json.loads`, and on exhaustion calls
  `re.findall` on the pattern `(\x5c\x7b(?:[^\x7b\x7d]|(?1))*\x5c\x7d)`.
  The `(?1)` recursion extension is not supported by Python's `re` module,
  so that call raises `re.error` (a direct subclass of `Exception`, not of
  `ValueError`) the moment the fallback is reached; lines 31-37 of the file
  (the scan over matches and the final `ValueError`) are unreachable.
* `backend/neo4j_service.py`, `create_relationship` — the edge-label
  computation `rel.get("type", "RELATES").upper()` followed by stripping
  non-alphanumeric characters.
* Python's `json.loads` (stdlib), called by `extract_json_from_text`, is
  embedded as `json_loads` below: a strict RFC-8259-style parser over
  characters.  Number literals are modelled as optional-sign integers
  (the `frac`/`exp` parts, and the CPython `NaN`/`Infinity` extensions,
  are not modelled; no claim exercises them); `\uXXXX` escapes are decoded
  code-point-wise (surrogate-pair recombination is not modelled); the
  ASCII fragments of `str.isspace`, `str.upper`, `str.isalnum` are used.
-/

namespace Sticky

/-- A parsed JSON value, as produced by `json.loads`: objects are kept as
key/value lists in insertion order with Python-`dict` duplicate-key
semantics applied by `pyDict` below. -/
inductive Json where
  | null
  | bool (b : Bool)
  | num (n : Int)
  | str (s : List Char)
  | arr (elems : List Json)
  | obj (members : List (List Char × Json))

/-- Whitespace skipped by Python's `json` lexer: exactly space, tab,
newline, carriage return. -/
def isJsonWs (c : Char) : Bool :=
  c = ' ' || c = '\t' || c = '\n' || c = '\r'

/-- ASCII fragment of Python `str.isspace`, the character class removed by
`str.strip()` with no argument. -/
def isPySpace (c : Char) : Bool :=
  c = ' ' || c = '\t' || c = '\n' || c = '\r' || c = '\x0b' || c = '\x0c'

/-- Embedding of Python `text.strip()`: drop the leading and trailing run of
whitespace characters. -/
def pyStrip (l : List Char) : List Char :=
  ((l.dropWhile isPySpace).reverse.dropWhile isPySpace).reverse

/-- Accumulating decimal-digit reader: consumes the maximal digit run. -/
def takeDigitsAux (acc : Nat) : List Char → Nat × List Char
  | [] => (acc, [])
  | c :: rest =>
    if c.isDigit then takeDigitsAux (10 * acc + (c.toNat - 48)) rest
    else (acc, c :: rest)

/-- Unsigned integer token with the grammar `0 | [1-9][0-9]*` used by the
`json` module's number regex: a leading `0` is a complete token by itself. -/
def parseUDigits : List Char → Option (Nat × List Char)
  | [] => none
  | '0' :: rest => some (0, rest)
  | c :: rest =>
    if c.isDigit then some (takeDigitsAux (c.toNat - 48) rest) else none

/-- Signed integer token `-? (0 | [1-9][0-9]*)`. -/
def parseNumberTok : List Char → Option (Int × List Char)
  | '-' :: rest =>
    match parseUDigits rest with
    | some (n, r) => some (-(n : Int), r)
    | none => none
  | l =>
    match parseUDigits l with
    | some (n, r) => some ((n : Int), r)
    | none => none

/-- Value of a hexadecimal digit, for `\uXXXX` escapes. -/
def hexDigit (c : Char) : Option Nat :=
  if c.isDigit then some (c.toNat - 48)
  else if 'a' ≤ c && c ≤ 'f' then some (c.toNat - 87)
  else if 'A' ≤ c && c ≤ 'F' then some (c.toNat - 55)
  else some 0 |>.filter (fun _ => false)

/-- Named single-character escapes of JSON strings. -/
def escChar (c : Char) : Option Char :=
  if c = '"' then some '"'
  else if c = '\\' then some '\\'
  else if c = '/' then some '/'
  else if c = 'b' then some '\x08'
  else if c = 'f' then some '\x0c'
  else if c = 'n' then some '\n'
  else if c = 'r' then some '\r'
  else if c = 't' then some '\t'
  else none

/-- Body of a JSON string literal, after the opening quote: returns the
decoded characters and the input after the closing quote.  Strict mode:
raw control characters below U+0020 are rejected, as are invalid escapes. -/
def parseStrAux : List Char → Option (List Char × List Char)
  | [] => none
  | '"' :: rest => some ([], rest)
  | '\\' :: 'u' :: h1 :: h2 :: h3 :: h4 :: rest =>
    match hexDigit h1, hexDigit h2, hexDigit h3, hexDigit h4 with
    | some a, some b, some c, some d =>
      match parseStrAux rest with
      | some (s, r) => some (Char.ofNat (((a * 16 + b) * 16 + c) * 16 + d) :: s, r)
      | none => none
    | _, _, _, _ => none
  | '\\' :: e :: rest =>
    match escChar e with
    | some c =>
      match parseStrAux rest with
      | some (s, r) => some (c :: s, r)
      | none => none
    | none => none
  | c :: rest =>
    if c = '\\' || c.toNat < 32 then none
    else
      match parseStrAux rest with
      | some (s, r) => some (c :: s, r)
      | none => none

/-- Python `dict` construction from a key/value list: a repeated key updates
the value stored at its first position. -/
def pyDictInsert (acc : List (List Char × Json)) (k : List Char) (v : Json) :
    List (List Char × Json) :=
  match acc with
  | [] => [(k, v)]
  | (k0, v0) :: rest =>
    if k0 = k then (k0, v) :: rest else (k0, v0) :: pyDictInsert rest k v

/-- Fold a member list into Python-`dict` form (insertion order, last
duplicate value wins). -/
def pyDict (kvs : List (List Char × Json)) : List (List Char × Json) :=
  kvs.foldl (fun acc kv => pyDictInsert acc kv.1 kv.2) []

mutual

/-- One JSON value, preceded by optional whitespace; returns the value and
the rest of the input.  The fuel argument only enforces termination; the
top-level entry point supplies enough for any input (see `json_loads`). -/
def parseValue : Nat → List Char → Option (Json × List Char)
  | 0, _ => none
  | Nat.succ fuel, l =>
    match l.dropWhile isJsonWs with
    | '{' :: rest => parseObj fuel rest
    | '[' :: rest => parseArr fuel rest
    | '"' :: rest =>
      match parseStrAux rest with
      | some (s, r) => some (Json.str s, r)
      | none => none
    | 't' :: 'r' :: 'u' :: 'e' :: rest => some (Json.bool true, rest)
    | 'f' :: 'a' :: 'l' :: 's' :: 'e' :: rest => some (Json.bool false, rest)
    | 'n' :: 'u' :: 'l' :: 'l' :: rest => some (Json.null, rest)
    | l' =>
      match parseNumberTok l' with
      | some (n, r) => some (Json.num n, r)
      | none => none

/-- Object body, after the opening brace. -/
def parseObj : Nat → List Char → Option (Json × List Char)
  | 0, _ => none
  | Nat.succ fuel, l =>
    match l.dropWhile isJsonWs with
    | '}' :: rest => some (Json.obj [], rest)
    | l' =>
      match parseMembers fuel l' with
      | some (kvs, r) => some (Json.obj (pyDict kvs), r)
      | none => none

/-- One or more `"key": value` members, up to and including the closing
brace. -/
def parseMembers : Nat → List Char → Option (List (List Char × Json) × List Char)
  | 0, _ => none
  | Nat.succ fuel, l =>
    match l.dropWhile isJsonWs with
    | '"' :: rest =>
      match parseStrAux rest with
      | some (key, r1) =>
        match r1.dropWhile isJsonWs with
        | ':' :: r2 =>
          match parseValue fuel r2 with
          | some (v, r3) =>
            match r3.dropWhile isJsonWs with
            | ',' :: r4 =>
              match parseMembers fuel r4 with
              | some (kvs, r5) => some ((key, v) :: kvs, r5)
              | none => none
            | '}' :: r4 => some ([(key, v)], r4)
            | _ => none
          | none => none
        | _ => none
      | none => none
    | _ => none

/-- Array body, after the opening bracket. -/
def parseArr : Nat → List Char → Option (Json × List Char)
  | 0, _ => none
  | Nat.succ fuel, l =>
    match l.dropWhile isJsonWs with
    | ']' :: rest => some (Json.arr [], rest)
    | l' =>
      match parseElems fuel l' with
      | some (xs, r) => some (Json.arr xs, r)
      | none => none

/-- One or more array elements, up to and including the closing bracket. -/
def parseElems : Nat → List Char → Option (List Json × List Char)
  | 0, _ => none
  | Nat.succ fuel, l =>
    match parseValue fuel l with
    | some (v, r1) =>
      match r1.dropWhile isJsonWs with
      | ',' :: r2 =>
        match parseElems fuel r2 with
        | some (xs, r3) => some (v :: xs, r3)
        | none => none
      | ']' :: r2 => some ([v], r2)
      | _ => none
    | none => none

end

/-- Embedding of Python `json.loads` on a character sequence: parse one value
surrounded by optional whitespace; anything left over is an error
("Extra data").  The fuel `4 * (length + 1)` dominates the recursion depth
of the grammar (each nesting level consumes at least one input character
and at most three units of fuel). -/
def json_loads (l : List Char) : Option Json :=
  match parseValue (4 * (l.length + 1)) l with
  | some (v, rest) => if rest.dropWhile isJsonWs = [] then some v else none
  | none => none

/-- Python slice `l[a:b]` for `0 ≤ a ≤ b ≤ l.length`. -/
def slice (l : List Char) (a b : Nat) : List Char :=
  (l.take b).drop a

/-- True for the two characters that can open a JSON object or array. -/
def isOpenBrace (c : Char) : Bool :=
  c = '{' || c = '['

/-- Index of the first `\x7b` or `[` in the text, as computed by the
`for i, ch in enumerate(text)` loop of `extract_json_from_text`. -/
def firstBrace : List Char → Option Nat
  | [] => none
  | c :: rest =>
    if isOpenBrace c then some 0 else (firstBrace rest).map (· + 1)

/-- The shrinking loop `for end in range(len(text), start, -1)`: the argument
`k` counts the candidate lengths still to try, so the call with `k = n`
tries end positions `start + n, start + n - 1, ..., start + 1` in that
order and returns the first slice accepted by `json_loads`. -/
def scanDown (t : List Char) (start : Nat) : Nat → Option Json
  | 0 => none
  | Nat.succ k =>
    match json_loads (slice t start (start + k + 1)) with
    | some v => some v
    | none => scanDown t start k

/-- Failure kinds observable from `extract_json_from_text`.
`noJsonFound` is `ValueError("No JSON object found in text.")` (line 20).
`reError` is the `re.error` escaping from `re.findall` at line 30: the
pattern uses the recursion extension `(?1)`, which Python's `re` module
rejects at compile time, so reaching the fallback raises before any
scanning happens.  `unparsable` stands for
`ValueError("Could not extract JSON from text.")` (line 37), which is
consequently unreachable. -/
inductive ExtractErr where
  | noJsonFound
  | reError
  | unparsable
deriving DecidableEq

/-- Embedding of `extract_json_from_text` (backend/utils.py): strip, locate
the first opening brace, shrink the end boundary until a slice parses;
on exhaustion the fallback `re.findall` raises `re.error`. -/
def extract_json_from_text (text : List Char) : Except ExtractErr Json :=
  match firstBrace (pyStrip text) with
  | none => Except.error ExtractErr.noJsonFound
  | some start =>
    match scanDown (pyStrip text) start ((pyStrip text).length - start) with
    | some v => Except.ok v
    | none => Except.error ExtractErr.reError

/-- ASCII fragment of Python `str.upper`, applied character-wise. -/
def pyToUpper (c : Char) : Char := c.toUpper

/-- ASCII fragment of Python `str.isalnum`. -/
def pyIsAlnum (c : Char) : Bool := c.isAlphanum

/-- Embedding of the edge-label computation of `create_relationship`
(backend/neo4j_service.py lines 75-76):
`rel.get("type", "RELATES").upper()` followed by
keeping only the alphanumeric characters.  The argument is the value of
the record's "type" key, `none` when the key is absent. -/
def create_relationship_rel_type (ty : Option (List Char)) : List Char :=
  let t := (ty.getD ("RELATES".toList)).map pyToUpper
  t.filter pyIsAlnum

/-! ### The shrinking loop returns the longest parsable slice -/

/-- If some candidate length `ks` within the first `k` candidate lengths
parses and every strictly longer candidate fails, the shrinking loop
returns the value of the `ks` candidate. -/
theorem scanDown_eq_of_max (t : List Char) (start : Nat) :
    ∀ (k ks : Nat) (v : Json), 1 ≤ ks → ks ≤ k →
    json_loads (slice t start (start + ks)) = some v →
    (∀ j, ks < j → j ≤ k → (json_loads (slice t start (start + j))).isNone = true) →
    scanDown t start k = some v := by
  intro k
  induction k with
  | zero => intro ks v h1 h2 _ _; omega
  | succ k ih =>
    intro ks v h1 h2 hparse hmax
    by_cases hk : ks = k + 1
    · subst hk
      have : start + (k + 1) = start + k + 1 := by omega
      rw [this] at hparse
      simp [scanDown, hparse]
    · have hks : ks ≤ k := by omega
      have hnone : json_loads (slice t start (start + k + 1)) = none := by
        have := hmax (k + 1) (by omega) (by omega)
        rw [Option.isNone_iff_eq_none] at this
        have harr : start + (k + 1) = start + k + 1 := by omega
        rwa [harr] at this
      have hrec := ih ks v h1 hks hparse (fun j hj1 hj2 => hmax j hj1 (by omega))
      simp [scanDown, hnone, hrec]

/-- Core lemma behind the greedy-longest-prefix behavior: if the trimmed
text has its first opening brace at `start`, the slice `[start:e]` parses
to `v`, and every strictly longer slice fails, then extraction succeeds
with `v`. -/
theorem extract_longest (text : List Char) (start e : Nat) (v : Json)
    (hfb : firstBrace (pyStrip text) = some start)
    (hlt : start < e) (hle : e ≤ (pyStrip text).length)
    (hparse : json_loads (slice (pyStrip text) start e) = some v)
    (hmax : ∀ e' < (pyStrip text).length + 1, e < e' →
      (json_loads (slice (pyStrip text) start e')).isNone = true) :
    extract_json_from_text text = Except.ok v := by
  have hs : scanDown (pyStrip text) start ((pyStrip text).length - start) = some v := by
    apply scanDown_eq_of_max (pyStrip text) start ((pyStrip text).length - start) (e - start)
    · omega
    · omega
    · have harr : start + (e - start) = e := by omega
      rw [harr]; exact hparse
    · intro j hj1 hj2
      have := hmax (start + j) (by omega) (by omega)
      exact this
  simp [extract_json_from_text, hfb, hs]

/-- C1: for every input string whose trimmed form contains a first opening
brace at index `start`, if the slice `text[start:e]` parses as JSON and
every strictly longer slice `text[start:e']` fails, then extraction
returns the parsed value of that longest valid slice — the greedy
longest-valid-prefix starting at the first opening brace, never a shorter
candidate. -/
theorem extract_returns_longest_valid_prefix (text : List Char) (start e : Nat) (v : Json)
    (hfb : firstBrace (pyStrip text) = some start)
    (hlt : start < e) (hle : e ≤ (pyStrip text).length)
    (hparse : json_loads (slice (pyStrip text) start e) = some v)
    (hmax : ∀ e' < (pyStrip text).length + 1, e < e' →
      (json_loads (slice (pyStrip text) start e')).isNone = true) :
    extract_json_from_text text = Except.ok v :=
  extract_longest text start e v hfb hlt hle hparse hmax

/-- Witness for C1 on the input `"[1] x"`: both `[1]` (length 3) and
`"[1] "` (length 4, trailing whitespace tolerated by the parser) are valid
candidates; the loop returns the longer one, slice `[0:4]`. -/
theorem extract_returns_longest_valid_prefix_witness :
    extract_json_from_text ("[1] x".toList) = Except.ok (Json.arr [Json.num 1]) :=
  extract_returns_longest_valid_prefix ("[1] x".toList) 0 4 (Json.arr [Json.num 1])
    rfl (by decide) (by decide) rfl (by decide)

/-! ### Characterization of the no-JSON-found failure -/

/-- Membership survives `dropWhile` for elements the predicate rejects. -/
theorem mem_dropWhile_of_mem {p : Char → Bool} {c : Char} :
    ∀ {l : List Char}, c ∈ l → p c = false → c ∈ l.dropWhile p := by
  intro l
  induction l with
  | nil => intro h _; cases h
  | cons a rest ih =>
    intro hmem hp
    rcases List.mem_cons.mp hmem with h | h
    · subst h
      simp [List.dropWhile, hp]
    · by_cases ha : p a
      · simpa [List.dropWhile, ha] using ih h hp
      · simp [List.dropWhile, ha, List.mem_cons]
        right
        exact h

/-- Membership in the result of `dropWhile` implies membership in the
original list. -/
theorem mem_of_mem_dropWhile {p : Char → Bool} {c : Char} :
    ∀ {l : List Char}, c ∈ l.dropWhile p → c ∈ l := by
  intro l
  induction l with
  | nil => intro h; simp [List.dropWhile] at h
  | cons a rest ih =>
    intro hmem
    by_cases ha : p a
    · simp only [List.dropWhile, ha] at hmem
      exact List.mem_cons.mpr (Or.inr (ih hmem))
    · simpa [List.dropWhile, ha] using hmem

/-- Characters of the stripped text come from the original text. -/
theorem mem_of_mem_pyStrip {c : Char} {l : List Char} (h : c ∈ pyStrip l) : c ∈ l := by
  unfold pyStrip at h
  rw [List.mem_reverse] at h
  have h1 := mem_of_mem_dropWhile h
  rw [List.mem_reverse] at h1
  exact mem_of_mem_dropWhile h1

/-- A non-whitespace character of the text survives stripping. -/
theorem mem_pyStrip_of_mem {c : Char} {l : List Char} (h : c ∈ l)
    (hc : isPySpace c = false) : c ∈ pyStrip l := by
  unfold pyStrip
  rw [List.mem_reverse]
  apply mem_dropWhile_of_mem _ hc
  rw [List.mem_reverse]
  exact mem_dropWhile_of_mem h hc

/-- The brace search fails exactly on brace-free text. -/
theorem firstBrace_eq_none_iff :
    ∀ {l : List Char}, firstBrace l = none ↔ ∀ c ∈ l, isOpenBrace c = false := by
  intro l
  induction l with
  | nil => simp [firstBrace]
  | cons a rest ih =>
    cases ha : isOpenBrace a with
    | true =>
      simp only [firstBrace, ha, if_true, List.mem_cons]
      constructor
      · intro h; cases h
      · intro h
        have := h a (Or.inl rfl)
        rw [ha] at this
        cases this
    | false =>
      have hred : firstBrace (a :: rest) = Option.map (· + 1) (firstBrace rest) := by
        simp [firstBrace, ha]
      rw [hred, Option.map_eq_none']
      constructor
      · intro h c hc
        rcases List.mem_cons.mp hc with h1 | h1
        · subst h1; exact ha
        · exact ih.mp h c h1
      · intro h
        exact ih.mpr (fun c hc => h c (List.mem_cons.mpr (Or.inr hc)))

/-- C2: extraction fails with `NoJsonFoundError` exactly when the input
contains no opening brace (`\x7b`) and no opening bracket (`[`) at all. -/
theorem extract_noJsonFound_iff (text : List Char) :
    extract_json_from_text text = Except.error ExtractErr.noJsonFound ↔
    ∀ c ∈ text, c ≠ '{' ∧ c ≠ '[' := by
  constructor
  · intro h c hc
    have hnone : firstBrace (pyStrip text) = none := by
      cases h1 : firstBrace (pyStrip text) with
      | none => rfl
      | some s =>
        exfalso
        cases h2 : scanDown (pyStrip text) s ((pyStrip text).length - s) with
        | none => simp [extract_json_from_text, h1, h2] at h
        | some v => simp [extract_json_from_text, h1, h2] at h
    have hall := firstBrace_eq_none_iff.mp hnone
    constructor
    · intro hceq
      subst hceq
      have hmem : ('{' : Char) ∈ pyStrip text := mem_pyStrip_of_mem hc (by decide)
      have := hall _ hmem
      simp [isOpenBrace] at this
    · intro hceq
      subst hceq
      have hmem : ('[' : Char) ∈ pyStrip text := mem_pyStrip_of_mem hc (by decide)
      have := hall _ hmem
      simp [isOpenBrace] at this
  · intro h
    have hnone : firstBrace (pyStrip text) = none := by
      apply firstBrace_eq_none_iff.mpr
      intro c hc
      have hmem := mem_of_mem_pyStrip hc
      have := h c hmem
      simp [isOpenBrace, this.1, this.2]
    simp [extract_json_from_text, hnone]

/-- Witness for C2: the empty input and a prose-only input both fail with
the no-JSON-found error. -/
theorem extract_noJsonFound_iff_witness :
    extract_json_from_text ("".toList) = Except.error ExtractErr.noJsonFound ∧
    extract_json_from_text ("hello world, no json here".toList) =
      Except.error ExtractErr.noJsonFound :=
  ⟨(extract_noJsonFound_iff _).mpr (by decide),
   (extract_noJsonFound_iff _).mpr (by decide)⟩

/-! ### The regex fallback raises `re.error`: lines 31-37 are dead code -/

/-- C3: on the truncated object `\x7b"a": \x7b"b": 1\x7d` a plausible start is
found (so the failure is not `NoJsonFoundError`), no slice starting there
parses, and the fallback then raises `re.error` from the unsupported
`(?1)` pattern — not the documented `ValueError`
("Could not extract JSON from text."), which the spec calls
`UnparsableJsonError`. -/
theorem extract_truncated_object_raises_reError :
    extract_json_from_text ("\x7b\"a\": \x7b\"b\": 1\x7d".toList) =
      Except.error ExtractErr.reError := by rfl

/-- C4: the failure on `"[oops"` is the untyped `re.error`, a third kind
distinct from both members of the documented two-error taxonomy; the
docstring of `extract_json_from_text` promises a `ValueError`, which
`re.error` is not. -/
theorem extract_failure_outside_taxonomy :
    extract_json_from_text ("[oops".toList) = Except.error ExtractErr.reError ∧
    ExtractErr.reError ≠ ExtractErr.noJsonFound ∧
    ExtractErr.reError ≠ ExtractErr.unparsable :=
  ⟨by rfl, by decide, by decide⟩

/-- C6: on `"[ \x7b"a": 1\x7d"` the shrinking scan exhausts all candidates (the
array is never closed), and the text does contain a balanced `\x7b...\x7d`
substring that parses — exactly what the claimed fallback scan would
return — yet the code raises `re.error` at the `re.findall` call, because
the pattern's `(?1)` recursion extension is rejected by Python's `re`
module before any scanning happens. -/
theorem extract_fallback_unreachable :
    extract_json_from_text ("[ \x7b\"a\": 1\x7d".toList) =
      Except.error ExtractErr.reError ∧
    json_loads ("\x7b\"a\": 1\x7d".toList) =
      some (Json.obj [("a".toList, Json.num 1)]) :=
  ⟨by rfl, by rfl⟩

/-! ### Successful extraction always yields an object or an array -/

/-- The index reported by the brace search holds an opening brace. -/
theorem firstBrace_get :
    ∀ {l : List Char} {i : Nat}, firstBrace l = some i →
    ∃ c, l[i]? = some c ∧ isOpenBrace c = true := by
  intro l
  induction l with
  | nil => intro i h; simp [firstBrace] at h
  | cons a rest ih =>
    intro i h
    cases ha : isOpenBrace a with
    | true =>
      have : firstBrace (a :: rest) = some 0 := by simp [firstBrace, ha]
      rw [this] at h
      injection h with h0
      exact ⟨a, by rw [← h0]; simp, ha⟩
    | false =>
      have hred : firstBrace (a :: rest) = Option.map (· + 1) (firstBrace rest) := by
        simp [firstBrace, ha]
      rw [hred] at h
      cases hfb : firstBrace rest with
      | none => rw [hfb] at h; cases h
      | some j =>
        rw [hfb] at h
        injection h with h0
        obtain ⟨c, hget, hc⟩ := ih hfb
        exact ⟨c, by rw [← h0]; simpa using hget, hc⟩

/-- Any value produced by the shrinking loop comes from parsing some slice
that starts at `start` and is nonempty. -/
theorem scanDown_some (t : List Char) (start : Nat) :
    ∀ (k : Nat) (v : Json), scanDown t start k = some v →
    ∃ e, start < e ∧ json_loads (slice t start e) = some v := by
  intro k
  induction k with
  | zero => intro v h; simp [scanDown] at h
  | succ k ih =>
    intro v h
    rw [scanDown] at h
    cases hp : json_loads (slice t start (start + k + 1)) with
    | some w =>
      rw [hp] at h
      injection h with h0
      exact ⟨start + k + 1, by omega, by rw [hp, h0]⟩
    | none =>
      rw [hp] at h
      exact ih v h

/-- A successful object-body parse always builds an `obj` value. -/
theorem parseObj_shape (f : Nat) (l : List Char) (v : Json) (r : List Char)
    (h : parseObj f l = some (v, r)) : ∃ kvs, v = Json.obj kvs := by
  cases f with
  | zero => simp [parseObj] at h
  | succ f =>
    rw [parseObj] at h
    split at h
    · injection h with h2
      injection h2 with h3 h4
      exact ⟨[], h3.symm⟩
    · split at h
      · injection h with h2
        injection h2 with h3 h4
        exact ⟨_, h3.symm⟩
      · cases h

/-- A successful array-body parse always builds an `arr` value. -/
theorem parseArr_shape (f : Nat) (l : List Char) (v : Json) (r : List Char)
    (h : parseArr f l = some (v, r)) : ∃ xs, v = Json.arr xs := by
  cases f with
  | zero => simp [parseArr] at h
  | succ f =>
    rw [parseArr] at h
    split at h
    · injection h with h2
      injection h2 with h3 h4
      exact ⟨[], h3.symm⟩
    · split at h
      · injection h with h2
        injection h2 with h3 h4
        exact ⟨_, h3.symm⟩
      · cases h

/-- A parse of a text whose first character is an opening brace (no leading
whitespace) yields an object or an array, never a scalar. -/
theorem json_loads_head_shape (l : List Char) (v : Json) (c : Char)
    (hp : json_loads l = some v) (hhead : l.head? = some c)
    (hc : isOpenBrace c = true) :
    (∃ kvs, v = Json.obj kvs) ∨ (∃ xs, v = Json.arr xs) := by
  obtain ⟨l₂, rfl⟩ : ∃ l₂, l = c :: l₂ := by
    cases l with
    | nil => cases hhead
    | cons a rest =>
      injection hhead with h0
      exact ⟨rest, by rw [h0]⟩
  have hcc : c = '{' ∨ c = '[' := by simpa [isOpenBrace] using hc
  unfold json_loads at hp
  obtain ⟨f, hf⟩ : ∃ f, 4 * ((c :: l₂).length + 1) = f + 1 :=
    ⟨4 * ((c :: l₂).length + 1) - 1, by omega⟩
  rw [hf] at hp
  rcases hcc with rfl | rfl
  · have hred : parseValue (f + 1) ('{' :: l₂) = parseObj f l₂ := rfl
    rw [hred] at hp
    cases hobj : parseObj f l₂ with
    | none => rw [hobj] at hp; cases hp
    | some pr =>
      obtain ⟨w, r⟩ := pr
      rw [hobj] at hp
      have hw : w = v := by
        by_cases hr : r.dropWhile isJsonWs = []
        · simp [hr] at hp; exact hp
        · simp [hr] at hp
      exact Or.inl (hw ▸ parseObj_shape f l₂ w r hobj)
  · have hred : parseValue (f + 1) ('[' :: l₂) = parseArr f l₂ := rfl
    rw [hred] at hp
    cases harr : parseArr f l₂ with
    | none => rw [harr] at hp; cases hp
    | some pr =>
      obtain ⟨w, r⟩ := pr
      rw [harr] at hp
      have hw : w = v := by
        by_cases hr : r.dropWhile isJsonWs = []
        · simp [hr] at hp; exact hp
        · simp [hr] at hp
      exact Or.inr (hw ▸ parseArr_shape f l₂ w r harr)

/-- C7: whenever extraction succeeds, the returned value is a keyed mapping
(object) or an ordered sequence (array) — never a bare scalar at top
level, because every candidate slice begins at the first `\x7b` or `[`. -/
theorem extract_ok_is_obj_or_arr (text : List Char) (v : Json)
    (h : extract_json_from_text text = Except.ok v) :
    (∃ kvs, v = Json.obj kvs) ∨ (∃ xs, v = Json.arr xs) := by
  cases hfb : firstBrace (pyStrip text) with
  | none => simp [extract_json_from_text, hfb] at h
  | some start =>
    simp only [extract_json_from_text, hfb] at h
    cases hs : scanDown (pyStrip text) start ((pyStrip text).length - start) with
    | none => rw [hs] at h; cases h
    | some w =>
      rw [hs] at h
      injection h with h0
      subst h0
      obtain ⟨e, he, hparse⟩ := scanDown_some _ _ _ _ hs
      obtain ⟨c, hget, hc⟩ := firstBrace_get hfb
      have hhead : (slice (pyStrip text) start e).head? = some c := by
        unfold slice
        rw [List.head?_eq_getElem?, List.getElem?_drop]
        rw [Nat.add_zero, List.getElem?_take_of_lt he]
        exact hget
      exact json_loads_head_shape _ _ _ hparse hhead hc

/-- Witness for C7: `extract('[1, 2, 3]')` succeeds with the ordered
sequence `[1, 2, 3]` (arrays are valid top-level results), and the result
is indeed of sequence shape. -/
theorem extract_ok_is_obj_or_arr_witness :
    extract_json_from_text ("[1, 2, 3]".toList) =
      Except.ok (Json.arr [Json.num 1, Json.num 2, Json.num 3]) ∧
    ((∃ kvs, Json.arr [Json.num 1, Json.num 2, Json.num 3] = Json.obj kvs) ∨
     (∃ xs, Json.arr [Json.num 1, Json.num 2, Json.num 3] = Json.arr xs)) :=
  ⟨by rfl, extract_ok_is_obj_or_arr ("[1, 2, 3]".toList) _ (by rfl)⟩

/-! ### Round-trip through prose wrapping -/

/-- Lowercase hexadecimal digit, as emitted by `json.dumps` escapes. -/
def encodeHexDigit (n : Nat) : Char :=
  if n < 10 then Char.ofNat (48 + n) else Char.ofNat (87 + n)

/-- Character encoding of `json.dumps` with its `ensure_ascii` default:
named escapes for the usual control characters, `\uXXXX` for the rest of
the non-printable or non-ASCII range (surrogate-pair encoding of astral
code points is not modelled). -/
def encodeChar (c : Char) : List Char :=
  if c = '"' then ['\\', '"']
  else if c = '\\' then ['\\', '\\']
  else if c = '\n' then ['\\', 'n']
  else if c = '\t' then ['\\', 't']
  else if c = '\r' then ['\\', 'r']
  else if c = '\x08' then ['\\', 'b']
  else if c = '\x0c' then ['\\', 'f']
  else if c.toNat < 32 || 126 < c.toNat then
    ['\\', 'u', encodeHexDigit (c.toNat / 4096 % 16), encodeHexDigit (c.toNat / 256 % 16),
     encodeHexDigit (c.toNat / 16 % 16), encodeHexDigit (c.toNat % 16)]
  else [c]

/-- Decimal rendering of an integer, as `str(int)` in Python. -/
def encodeNum (n : Int) : List Char :=
  if n < 0 then '-' :: Nat.toDigits 10 n.natAbs else Nat.toDigits 10 n.natAbs

mutual

/-- Serialization of a JSON value in the style of Python `json.dumps` with
its default separators `", "` and `": "`.  Only the spec's round-trip
property mentions an encoder; the extraction routine itself never
serializes. -/
def jsonEncode : Json → List Char
  | Json.null => "null".toList
  | Json.bool true => "true".toList
  | Json.bool false => "false".toList
  | Json.num n => encodeNum n
  | Json.str s => '"' :: (s.foldr (fun c acc => encodeChar c ++ acc) ['"'])
  | Json.arr [] => "[]".toList
  | Json.arr (x :: xs) => '[' :: (jsonEncode x ++ encodeItems xs) ++ [']']
  | Json.obj [] => ['{', '}']
  | Json.obj ((k, v) :: kvs) =>
    '{' :: ('"' :: (k.foldr (fun c acc => encodeChar c ++ acc) ['"', ':', ' ']) ++
      jsonEncode v ++ encodeMembers kvs) ++ ['}']

/-- Comma-separated continuation of an array body. -/
def encodeItems : List Json → List Char
  | [] => []
  | x :: xs => ',' :: ' ' :: jsonEncode x ++ encodeItems xs

/-- Comma-separated continuation of an object body. -/
def encodeMembers : List (List Char × Json) → List Char
  | [] => []
  | (k, v) :: kvs =>
    ',' :: ' ' :: ('"' :: (k.foldr (fun c acc => encodeChar c ++ acc) ['"', ':', ' ']) ++
      jsonEncode v) ++ encodeMembers kvs

end

/-- C5 counterexample: the scalar `5` is a syntactically valid JSON value,
its encoding `"5"` parses as JSON at its own first character (and, being
the whole text when wrapped with empty prefix and suffix, is trivially the
longest such parse), the empty prefix contains no `\x7b` or `[` — yet
extraction of `"" + jsonEncode(5) + ""` does not return `5`: it fails with
`NoJsonFoundError`, because the scan only ever starts at a `\x7b` or `[`
character.  The claim is therefore false for scalar values. -/
theorem extract_roundtrip_counterexample :
    jsonEncode (Json.num 5) = "5".toList ∧
    json_loads ("".toList ++ jsonEncode (Json.num 5) ++ "".toList) = some (Json.num 5) ∧
    extract_json_from_text ("".toList ++ jsonEncode (Json.num 5) ++ "".toList) =
      Except.error ExtractErr.noJsonFound :=
  ⟨by rfl, by rfl, by rfl⟩

/-- Splitting `dropWhile` across an append whose right part starts with a
character the predicate rejects. -/
theorem dropWhile_append_head {p : Char → Bool} {b : List Char} {c : Char}
    (hb : b.head? = some c) (hc : p c = false) :
    ∀ a : List Char, (a ++ b).dropWhile p = a.dropWhile p ++ b := by
  intro a
  induction a with
  | nil =>
    cases b with
    | nil => cases hb
    | cons x rest =>
      injection hb with h0
      subst h0
      simp [List.dropWhile_cons, hc]
  | cons a0 arest ih =>
    cases ha : p a0 with
    | true => simpa [List.dropWhile_cons, ha] using ih
    | false => simp [List.dropWhile_cons, ha]

/-- Stripping a text of the form `pre ++ enc ++ suf`, where `enc` starts
and ends with non-whitespace, strips only inside `pre` and `suf`. -/
theorem pyStrip_append (pre enc suf : List Char) (c0 cl : Char)
    (hhead : enc.head? = some c0) (hc0 : isPySpace c0 = false)
    (hlast : enc.getLast? = some cl) (hcl : isPySpace cl = false) :
    pyStrip (pre ++ enc ++ suf) =
      pre.dropWhile isPySpace ++ enc ++ (suf.reverse.dropWhile isPySpace).reverse := by
  obtain ⟨enc', rfl⟩ : ∃ enc', enc = c0 :: enc' := by
    cases enc with
    | nil => cases hhead
    | cons x rest => injection hhead with h0; exact ⟨rest, by rw [h0]⟩
  have hleft : (pre ++ (c0 :: enc') ++ suf).dropWhile isPySpace =
      pre.dropWhile isPySpace ++ ((c0 :: enc') ++ suf) := by
    rw [List.append_assoc]
    exact dropWhile_append_head (by simp) hc0 pre
  have hrev : ∃ encr, (c0 :: enc').reverse = cl :: encr := by
    have : (c0 :: enc').reverse.head? = some cl := by
      rw [List.head?_reverse]
      exact hlast
    cases hr : (c0 :: enc').reverse with
    | nil => rw [hr] at this; cases this
    | cons x rest =>
      rw [hr] at this
      injection this with h0
      exact ⟨rest, by rw [h0]⟩
  obtain ⟨encr, hencr⟩ := hrev
  unfold pyStrip
  rw [hleft]
  have hr2 : (pre.dropWhile isPySpace ++ ((c0 :: enc') ++ suf)).reverse =
      suf.reverse ++ ((c0 :: enc').reverse ++ (pre.dropWhile isPySpace).reverse) := by
    simp [List.reverse_append, List.append_assoc]
  rw [hr2]
  have hright : (suf.reverse ++ ((c0 :: enc').reverse ++ (pre.dropWhile isPySpace).reverse)).dropWhile
      isPySpace =
      suf.reverse.dropWhile isPySpace ++ ((c0 :: enc').reverse ++ (pre.dropWhile isPySpace).reverse) := by
    apply dropWhile_append_head _ hcl
    rw [hencr]
    simp
  rw [hright]
  simp [List.reverse_append, List.append_assoc]

/-- The brace search on `a ++ c0 :: r` with brace-free `a` and opening
`c0` reports exactly the length of `a`. -/
theorem firstBrace_append_open :
    ∀ (a : List Char), (∀ c ∈ a, isOpenBrace c = false) →
    ∀ (c0 : Char), isOpenBrace c0 = true → ∀ (r : List Char),
    firstBrace (a ++ c0 :: r) = some a.length := by
  intro a
  induction a with
  | nil => intro _ c0 hc0 r; simp [firstBrace, hc0]
  | cons x xs ih =>
    intro ha c0 hc0 r
    have hx : isOpenBrace x = false := ha x (List.mem_cons.mpr (Or.inl rfl))
    have hrec := ih (fun c hc => ha c (List.mem_cons.mpr (Or.inr hc))) c0 hc0 r
    simp [firstBrace, hx, hrec]

/-- General round-trip lemma: an encoding `enc` that begins with `\x7b` or
`[` and ends with a non-whitespace character, wrapped in a brace-free
prefix and any suffix, is recovered exactly when no strictly longer slice
parses from its position in the trimmed text. -/
theorem extract_roundtrip_aux (V : Json) (enc pre suf : List Char) (c0 cl : Char)
    (hhead : enc.head? = some c0) (hc0 : isOpenBrace c0 = true)
    (hlast : enc.getLast? = some cl) (hcl : isPySpace cl = false)
    (hpre : ∀ c ∈ pre, c ≠ '{' ∧ c ≠ '[')
    (henc : json_loads enc = some V)
    (hmax : ∀ e' < (pyStrip (pre ++ enc ++ suf)).length + 1,
      (pre.dropWhile isPySpace).length + enc.length < e' →
      (json_loads (slice (pyStrip (pre ++ enc ++ suf))
        ((pre.dropWhile isPySpace).length) e')).isNone = true) :
    extract_json_from_text (pre ++ enc ++ suf) = Except.ok V := by
  have hc0ws : isPySpace c0 = false := by
    rcases (by simpa [isOpenBrace] using hc0 : c0 = '{' ∨ c0 = '[') with rfl | rfl <;> rfl
  have hstrip := pyStrip_append pre enc suf c0 cl hhead hc0ws hlast hcl
  obtain ⟨enc', henc'⟩ : ∃ enc', enc = c0 :: enc' := by
    cases enc with
    | nil => cases hhead
    | cons x rest => injection hhead with h0; exact ⟨rest, by rw [h0]⟩
  have hp1free : ∀ c ∈ pre.dropWhile isPySpace, isOpenBrace c = false := by
    intro c hc
    have := hpre c (mem_of_mem_dropWhile hc)
    simp [isOpenBrace, this.1, this.2]
  have hfb : firstBrace (pyStrip (pre ++ enc ++ suf)) =
      some (pre.dropWhile isPySpace).length := by
    rw [hstrip, henc']
    have : pre.dropWhile isPySpace ++ (c0 :: enc') ++ (suf.reverse.dropWhile isPySpace).reverse =
        pre.dropWhile isPySpace ++ c0 :: (enc' ++ (suf.reverse.dropWhile isPySpace).reverse) := by
      simp [List.append_assoc]
    rw [this]
    exact firstBrace_append_open _ hp1free c0 hc0 _
  have hsl : slice (pyStrip (pre ++ enc ++ suf)) (pre.dropWhile isPySpace).length
      ((pre.dropWhile isPySpace).length + enc.length) = enc := by
    rw [hstrip]
    unfold slice
    rw [show (pre.dropWhile isPySpace).length + enc.length =
        (pre.dropWhile isPySpace ++ enc).length by simp]
    rw [show pre.dropWhile isPySpace ++ enc ++ (suf.reverse.dropWhile isPySpace).reverse =
        (pre.dropWhile isPySpace ++ enc) ++ (suf.reverse.dropWhile isPySpace).reverse by
      simp [List.append_assoc]]
    rw [List.take_left]
    exact List.drop_left _ _
  have hlen : 0 < enc.length := by rw [henc']; simp
  apply extract_longest (pre ++ enc ++ suf) (pre.dropWhile isPySpace).length
    ((pre.dropWhile isPySpace).length + enc.length) V hfb
  · omega
  · rw [hstrip]
    simp [List.length_append]
  · rw [hsl]
    exact henc
  · exact hmax

/-- C5 (amended): wrapping the encoding of an object or array value
(equivalently: an encoding that begins with `\x7b` or `[`; it also ends with
a non-whitespace character) in a `\x7b`/`[`-free prefix and an arbitrary
suffix is lossless, provided no strictly longer slice than the encoding
parses from the encoding's position in the trimmed text — the reading of
"`jsonEncode(V)` is the longest valid JSON parse starting at its own first
character".  The original claim also covered scalar values, and those fail
(see the counterexample: `extract("5")` raises `NoJsonFoundError`).
Second conjunct: the spec's trailing-commentary example, where commentary
and a newline follow the object, extracts to exactly that object. -/
theorem extract_roundtrip_of_obj_or_arr :
    (∀ (V : Json) (enc pre suf : List Char) (c0 cl : Char),
      enc.head? = some c0 → isOpenBrace c0 = true →
      enc.getLast? = some cl → isPySpace cl = false →
      (∀ c ∈ pre, c ≠ '{' ∧ c ≠ '[') →
      json_loads enc = some V →
      (∀ e' < (pyStrip (pre ++ enc ++ suf)).length + 1,
        (pre.dropWhile isPySpace).length + enc.length < e' →
        (json_loads (slice (pyStrip (pre ++ enc ++ suf))
          ((pre.dropWhile isPySpace).length) e')).isNone = true) →
      extract_json_from_text (pre ++ enc ++ suf) = Except.ok V) ∧
    extract_json_from_text
      ("Sure! Here is your JSON:\n\x7b\"a\": 1, \"b\": [1,2,3]\x7d\nLet me know if you need more.".toList) =
      Except.ok (Json.obj [("a".toList, Json.num 1),
        ("b".toList, Json.arr [Json.num 1, Json.num 2, Json.num 3])]) :=
  ⟨fun V enc pre suf c0 cl hh hc0 hl hcl hp he hm =>
    extract_roundtrip_aux V enc pre suf c0 cl hh hc0 hl hcl hp he hm,
   by rfl⟩

/-- Witness for C5: prose on both sides of the object
`\x7b"a": 1, "b": [1,2,3]\x7d`, with the suffix starting at a
non-whitespace character so that the encoding is the longest valid parse
from its own position. -/
theorem extract_roundtrip_of_obj_or_arr_witness :
    extract_json_from_text
      ("Sure! Here is your JSON:\n".toList ++
        "\x7b\"a\": 1, \"b\": [1,2,3]\x7d".toList ++
        "Let me know if you need more.".toList) =
      Except.ok (Json.obj [("a".toList, Json.num 1),
        ("b".toList, Json.arr [Json.num 1, Json.num 2, Json.num 3])]) :=
  extract_roundtrip_of_obj_or_arr.1
    (Json.obj [("a".toList, Json.num 1),
      ("b".toList, Json.arr [Json.num 1, Json.num 2, Json.num 3])])
    ("\x7b\"a\": 1, \"b\": [1,2,3]\x7d".toList)
    ("Sure! Here is your JSON:\n".toList)
    ("Let me know if you need more.".toList)
    '{' '}' (by rfl) (by rfl) (by rfl) (by rfl) (by decide) (by rfl) (by decide)

/-! ### Purity and the relationship-label sanitization -/

/-- C9: extraction is a pure, deterministic function of its single string
argument — in this embedding, as in the source, the computation reads
nothing but the argument (no globals, no I/O), so two calls on the same
input always produce the same structured value or the same failure
kind. -/
theorem extract_deterministic (s₁ s₂ : List Char) (h : s₁ = s₂) :
    extract_json_from_text s₁ = extract_json_from_text s₂ := by
  rw [h]

/-- Witness for C9: two identical calls on an object input agree. -/
theorem extract_deterministic_witness :
    extract_json_from_text ("\x7b\"k\": true\x7d".toList) =
      extract_json_from_text ("\x7b\"k\": true\x7d".toList) :=
  extract_deterministic ("\x7b\"k\": true\x7d".toList) ("\x7b\"k\": true\x7d".toList) rfl

/-- C8 counterexample: for the relationship type `"---"` the sanitization
strips every character, and `create_relationship` then uses the empty
string as the edge label — not the claimed `"RELATES"` fallback (the
`.get` default applies only when the key is absent). -/
theorem rel_type_empty_sanitization_counterexample :
    create_relationship_rel_type (some ("---".toList)) = [] ∧
    "RELATES".toList ≠ ([] : List Char) :=
  ⟨by rfl, by decide⟩

/-- C8 (amended): when the record has a "type" value, the edge label is
exactly that value uppercased with every non-alphanumeric character
stripped; the result consists of alphanumeric characters only, and it is
empty — the empty token, not `"RELATES"` — precisely when no character of
the uppercased type is alphanumeric. -/
theorem rel_type_sanitization (ty : List Char) :
    create_relationship_rel_type (some ty) = (ty.map pyToUpper).filter pyIsAlnum ∧
    (create_relationship_rel_type (some ty)).all pyIsAlnum = true ∧
    (create_relationship_rel_type (some ty) = [] ↔
      (ty.map pyToUpper).all (fun c => !(pyIsAlnum c)) = true) := by
  refine ⟨rfl, ?_, ?_⟩
  · simp only [create_relationship_rel_type, Option.getD_some, List.all_eq_true]
    intro c hc
    exact (List.mem_filter.mp hc).2
  · simp only [create_relationship_rel_type, Option.getD_some, List.filter_eq_nil_iff,
      List.all_eq_true, Bool.not_eq_true']
    constructor
    · intro h c hc
      have := h c hc
      cases hb : pyIsAlnum c
      · rfl
      · exact absurd hb this
    · intro h c hc
      rw [h c hc]
      simp

/-- Witness for C8: the type `"a-b2!"` sanitizes to the label `"AB2"`. -/
theorem rel_type_sanitization_witness :
    create_relationship_rel_type (some ("a-b2!".toList)) = "AB2".toList :=
  (rel_type_sanitization ("a-b2!".toList)).1.trans (by rfl)

/-- C10: a relationship record with no "type" key at all gets exactly the
edge label `"RELATES"`: the absent-key default is taken before uppercasing
and sanitization, both of which leave `"RELATES"` unchanged, so a missing
type never yields an empty label. -/
theorem rel_type_absent_defaults_to_RELATES :
    create_relationship_rel_type none = "RELATES".toList ∧
    create_relationship_rel_type none ≠ [] :=
  ⟨by rfl, by decide⟩

end Sticky
